import Mathlib

/-!
A verification development for the asyncmux library: a shallow embedding of its
lock-queue state machine (queue item model, instance RW-mux, keyed RW-mux), its
lock handle, and the singleton-per-key cache.

Promises are defunctionalized: a promise used as a one-shot signal becomes a
`Bool` resolution flag together with the list of subscribers registered on it
via `.then`; running a subscriber becomes emitting it into a FIFO microtask
list that a machine driver processes.  Step closures pushed onto a
`WriterItem.steps` array become `StepTok` tokens: the item's own `next`
function, or the `resolve` of one coalesced acquirer's step promise.
-/

namespace Asyncmux

/-- Queue item tags: writer, reader group, global barrier (`"W" | "R" | "G"`). -/
inductive Tag where
  | W
  | R
  | G
deriving DecidableEq, Repr

/-- A defunctionalized entry of `WriterItem.steps`: the `next` closure itself
(pushed when the steps array was empty), or the `resolve` of acquirer `a`'s
step promise (pushed when coalescing onto a busy writer item). -/
inductive StepTok where
  | selfNext
  | wakeStep (a : Nat)
deriving DecidableEq, Repr

/-- A subscriber registered on an item's `ready` promise via `.then`: either an
acquirer whose acquisition continues when the item becomes ready, or the
per-key-queue advance closure registered by `#getQueueEntries` on a
`GlobalItem`'s `ready`. -/
inductive Sub where
  | acqReady (a : Nat)
  | keyNext (k : String)
deriving DecidableEq, Repr

/-- A queue item (part_002 lines 13-86), with its `ready` promise
defunctionalized into a resolution flag plus subscriber list. -/
inductive QueueItem where
  | w (ready : Bool) (subs : List Sub) (steps : List StepTok)
  | r (ready : Bool) (subs : List Sub) (count : Int)
  | g (ready : Bool) (subs : List Sub)
deriving DecidableEq, Repr

def QueueItem.tag : QueueItem → Tag
  | .w .. => .W
  | .r .. => .R
  | .g .. => .G

/-- Writer arrival on one queue: the tail switch of `asyncmuxClassMethod`
(part_002 lines 338-396) and of `Asyncmux.lock` (lines 703-757).  An empty
queue gets a fresh writer item with resolved `ready`; a writer tail is
coalesced into (a `next` step if its steps are drained, else a step-promise
resolver for acquirer `a`); any other tail gets a fresh writer item with an
unresolved `ready` that the acquirer subscribes to.  The returned `Bool` is
true when the acquirer's `readyPromise` is already resolved at arrival (its
continuation is scheduled at once). -/
def writerArrive (q : List QueueItem) (a : Nat) : List QueueItem × Bool :=
  match q.getLast? with
  | none => (q ++ [.w true [] [.selfNext]], true)
  | some (.w ready subs steps) =>
      match steps with
      | [] =>
          if ready then (q.dropLast ++ [.w ready subs [.selfNext]], true)
          else (q.dropLast ++ [.w ready (subs ++ [.acqReady a]) [.selfNext]], false)
      | _ => (q.dropLast ++ [.w ready subs (steps ++ [.wakeStep a])], false)
  | some _ => (q ++ [.w false [.acqReady a] [.selfNext]], false)

/-- Reader arrival on one queue: the tail switch of
`asyncmuxReadonlyClassMethod` (part_002 lines 459-503) and of `Asyncmux.rLock`
(lines 849-893), with the `count += 1` of the arriving member included. -/
def readerArrive (q : List QueueItem) (a : Nat) : List QueueItem × Bool :=
  match q.getLast? with
  | none => (q ++ [.r true [] 1], true)
  | some (.r ready subs count) =>
      if ready then (q.dropLast ++ [.r ready subs (count + 1)], true)
      else (q.dropLast ++ [.r ready (subs ++ [.acqReady a]) (count + 1)], false)
  | some _ => (q ++ [.r false [.acqReady a] 1], false)

/-- Obtain or create a trailing `GlobalItem` on the global queue
(`#getQueueEntries`, part_002 lines 614-636), registering the per-key advance
closure for key `k` on its `ready`.  The returned `Bool` is true when that
`ready` is already resolved, in which case the closure is scheduled at once. -/
def gArrive (q : List QueueItem) (k : String) : List QueueItem × Bool :=
  match q.getLast? with
  | none => (q ++ [.g true []], true)
  | some (.g ready subs) =>
      if ready then (q, true)
      else (q.dropLast ++ [.g ready (subs ++ [.keyNext k])], false)
  | some _ => (q ++ [.g false [.keyNext k]], false)

/-- `queue[0]?.start()`: resolve the new head's `ready` and fire its
subscribers (returned as emissions for the machine's task list). -/
def startHead (q : List QueueItem) : List QueueItem × List Sub :=
  match q with
  | [] => ([], [])
  | .w _ subs steps :: rest => (.w true [] steps :: rest, subs)
  | .r _ subs count :: rest => (.r true [] count :: rest, subs)
  | .g _ subs :: rest => (.g true [] :: rest, subs)

/-- The step-popping loop of a writer `next()`: a `selfNext` step calls `next`
again (so two steps are consumed in a row), a resolver step wakes one coalesced
acquirer; an empty steps array means the item is drained. -/
def popSteps : List StepTok → List StepTok × Option Nat × Bool
  | [] => ([], none, true)
  | .selfNext :: rest => popSteps rest
  | .wakeStep a :: rest => (rest, some a, false)

/-- The writer `next()` (part_002 lines 374-382 / 729-742): pop the front step
of the writer item and run it, or — once the steps are drained — shift the
queue and start the new head.  The completing writer's own item is the queue
head when its release bookkeeping runs, matching `context.queue.shift()`.
Returns (queue', subscriber emissions, queue-now-empty). -/
def nextW (q : List QueueItem) : List QueueItem × List Sub × Bool :=
  match q with
  | .w ready subs steps :: rest =>
      match popSteps steps with
      | (rest', some a, _) => (.w ready subs rest' :: rest, [.acqReady a], false)
      | (_, none, _) =>
          let (q', emis) := startHead rest
          (q', emis, q'.isEmpty)
  | _ => (q, [], false)

/-- The reader `next()` (part_002 lines 495-501 / 876-887): decrement the
cohort count; at zero shift the queue and start the new head. -/
def nextR (q : List QueueItem) : List QueueItem × List Sub × Bool :=
  match q with
  | .r ready subs count :: rest =>
      if count - 1 = 0 then
        let (q', emis) := startHead rest
        (q', emis, q'.isEmpty)
      else (.r ready subs (count - 1) :: rest, [], false)
  | _ => (q, [], false)

/-! ## The holder-kind check of the instance mux (claim C2) -/

/-- The instance mux's current lock kind (`LockType`, part_002 line 154):
`"W" | "R"`, with `null` modeled as `none`. -/
inductive LockKind where
  | W
  | R
deriving DecidableEq, Repr

/-- The error taxonomy relevant to acquisition paths, with cancellation
carrying the caller-supplied reason verbatim. -/
inductive MuxError (ρ : Type) where
  | escalation
  | decoratorSupport
  | canceled (reason : ρ)
deriving DecidableEq, Repr

/-- The front of `asyncmuxClassMethod` (part_002 lines 319-396): the switch on
`context.lockType` — rejecting with `LockEscalationError` when it is `"R"`,
before the queue is read or written — followed by the writer arrival.  The
second component is the context's queue after the call. -/
def classMethodAcquire (ρ : Type) (lockType : Option LockKind) (q : List QueueItem)
    (a : Nat) : Except (MuxError ρ) Bool × List QueueItem :=
  match lockType with
  | some .R => (.error .escalation, q)
  | some .W =>
      let (q', readyNow) := writerArrive q a
      (.ok readyNow, q')
  | none =>
      let (q', readyNow) := writerArrive q a
      (.ok readyNow, q')

/-! ## The lock handle (claim C7) -/

/-- A one-shot promise cell: resolving an already-settled promise is a no-op.
The `Bool` returned by `resolve` records whether this call settled the cell —
the settling call is the one whose registered continuations (the release
bookkeeping `.finally(next)`) get scheduled. -/
structure PromiseCell where
  resolved : Bool
deriving DecidableEq, Repr

def PromiseCell.resolve (c : PromiseCell) : PromiseCell × Bool :=
  if c.resolved then (c, false) else ({ resolved := true }, true)

/-- `AsyncmuxLock` (part_002 lines 92-131): holds the resolver of the
`unlockPromise` and the `#unlockCalled` flag. -/
structure AsyncmuxLock where
  cell : PromiseCell
  unlockCalled : Bool
deriving DecidableEq, Repr

/-- A freshly constructed lock handle. -/
def AsyncmuxLock.fresh : AsyncmuxLock := ⟨⟨false⟩, false⟩

/-- `unlock()` (lines 116-119): set the flag and resolve. -/
def AsyncmuxLock.unlock (l : AsyncmuxLock) : AsyncmuxLock × Bool :=
  let (c, fired) := l.cell.resolve
  ({ cell := c, unlockCalled := true }, fired)

/-- `[Symbol.dispose]()` (lines 124-130): a no-op if `unlock` was called,
else resolve. -/
def AsyncmuxLock.scopeExit (l : AsyncmuxLock) : AsyncmuxLock × Bool :=
  if l.unlockCalled then (l, false)
  else
    let (c, fired) := l.cell.resolve
    ({ l with cell := c }, fired)

/-- A release action performed on a lock handle: an explicit `unlock()` call or
the scoped-destruction hook. -/
inductive ReleaseOp where
  | unlock
  | scopeExit
deriving DecidableEq, Repr

def AsyncmuxLock.applyOp (l : AsyncmuxLock) : ReleaseOp → AsyncmuxLock × Bool
  | .unlock => l.unlock
  | .scopeExit => l.scopeExit

/-- Run a sequence of release actions, counting how many of them settled the
unlock promise (each settlement schedules the queue-advance bookkeeping
exactly once). -/
def AsyncmuxLock.runOps : AsyncmuxLock → List ReleaseOp → AsyncmuxLock × Nat
  | l, [] => (l, 0)
  | l, op :: ops =>
      let (l', fired) := l.applyOp op
      let (l'', n) := l'.runOps ops
      (l'', (if fired then 1 else 0) + n)

/-! ## The singleton-per-key cache (claim C9) -/

/-- The behavior of one invocation of `fn` inside `singleton`
(src/src/_singleton.ts): return a plain value, return a promise (identified by
id, settled later), or throw synchronously. -/
inductive FnBehavior (α ε : Type) where
  | ret (v : α)
  | retPromise (p : Nat)
  | throwSync (e : ε)
deriving DecidableEq, Repr

/-- What the cache map stores for a key: a settled value, or the wrapper
promise stored before the underlying promise settles. -/
inductive CacheVal (α : Type) where
  | val (v : α)
  | pendingPromise (p : Nat)
deriving DecidableEq, Repr

/-- The `asyncmux__singleton` map: a JS `Map` keyed by `κ`, modeled by its
lookup function (`has key` = the lookup is `some`). -/
def Cache (κ α : Type) := κ → Option (CacheVal α)

def cacheGet {κ α : Type} (c : Cache κ α) (k : κ) : Option (CacheVal α) := c k

def cacheSet {κ α : Type} [DecidableEq κ] (c : Cache κ α) (k : κ) (v : CacheVal α) :
    Cache κ α :=
  fun k' => if k' = k then some v else c k'

def cacheDelete {κ α : Type} [DecidableEq κ] (c : Cache κ α) (k : κ) : Cache κ α :=
  fun k' => if k' = k then none else c k'

/-- `singleton(key, fn)` (src/src/_singleton.ts lines 20-45).  If the cache has
the key, return the cached entry without running `fn`.  Otherwise run `fn`: a
synchronous throw propagates with no entry written (the `cache.set` sits after
the call); a promise is wrapped and the wrapper stored under the key before it
settles; a plain value is stored directly.  Returns (result, cache', fnRan). -/
def singleton {κ α ε : Type} [DecidableEq κ] (cache : Cache κ α) (k : κ)
    (fb : FnBehavior α ε) : Except ε (CacheVal α) × Cache κ α × Bool :=
  match cacheGet cache k with
  | some v => (.ok v, cache, false)
  | none =>
      match fb with
      | .throwSync e => (.error e, cache, true)
      | .retPromise p =>
          let c' := cacheSet cache k (.pendingPromise p)
          (.ok (.pendingPromise p), c', true)
      | .ret v =>
          let c' := cacheSet cache k (.val v)
          (.ok (.val v), c', true)

/-- The resolve path of the wrapper promise inside `singleton`
(lines 29-32): `cache.set(key, value)`. -/
def settleResolve {κ α : Type} [DecidableEq κ] (cache : Cache κ α) (k : κ) (v : α) :
    Cache κ α :=
  cacheSet cache k (.val v)

/-- The reject path of the wrapper promise inside `singleton`
(lines 33-37): `cache.delete(key)` before rethrowing. -/
def settleReject {κ α : Type} [DecidableEq κ] (cache : Cache κ α) (k : κ) :
    Cache κ α :=
  cacheDelete cache k

theorem cacheGet_set {κ α : Type} [DecidableEq κ] (c : Cache κ α) (k : κ)
    (v : CacheVal α) : cacheGet (cacheSet c k v) k = some v := by
  simp [cacheGet, cacheSet]

theorem cacheGet_delete {κ α : Type} [DecidableEq κ] (c : Cache κ α) (k : κ) :
    cacheGet (cacheDelete c k) k = none := by
  simp [cacheGet, cacheDelete]

/-! ## Helper lemmas for the lock handle -/

theorem runOps_cons (l : Asyncmux.AsyncmuxLock) (op : ReleaseOp)
    (ops : List ReleaseOp) :
    l.runOps (op :: ops) =
      (((l.applyOp op).1.runOps ops).1,
        (if (l.applyOp op).2 then 1 else 0) + ((l.applyOp op).1.runOps ops).2) :=
  rfl

theorem applyOp_after_settled (l : Asyncmux.AsyncmuxLock) (op : ReleaseOp)
    (h : l.cell.resolved = true) :
    (l.applyOp op).1.cell.resolved = true ∧ (l.applyOp op).2 = false := by
  obtain ⟨⟨r⟩, u⟩ := l
  cases r with
  | false => simp at h
  | true => cases op <;> cases u <;> decide

theorem runOps_after_settled (l : Asyncmux.AsyncmuxLock) (ops : List ReleaseOp)
    (h : l.cell.resolved = true) : (l.runOps ops).2 = 0 := by
  induction ops generalizing l with
  | nil => rfl
  | cons op ops ih =>
      obtain ⟨h1, h2⟩ := applyOp_after_settled l op h
      rw [runOps_cons, h2]
      simp [ih _ h1]

/-! ## Claim theorems: C2, C7, C9 -/

/-- C2: an exclusive acquisition made while the owner's current enclosing
holder kind is `R` rejects with the escalation error, and the owner's queue is
left completely unchanged by the failed attempt (no item appended, no step
pushed, no count incremented). -/
theorem c2_escalation_rejects_without_touching_queue (ρ : Type)
    (q : List QueueItem) (a : Nat) :
    classMethodAcquire ρ (some .R) q a = (.error .escalation, q) := rfl

/-- C7: releasing a `LockHandle` twice — by two `unlock()` calls, or by
`unlock()` followed by scoped destruction — has the same effect as releasing
once: any nonempty sequence of release actions settles the unlock promise
(whose continuation is the queue-advance bookkeeping) exactly once, and the
handle state after a second release equals the state after the first. -/
theorem c7_release_once_semantics (ops : List ReleaseOp) (h : ops ≠ []) :
    (AsyncmuxLock.fresh.runOps ops).2 = 1 ∧
    AsyncmuxLock.fresh.unlock.1.unlock.1 = AsyncmuxLock.fresh.unlock.1 ∧
    AsyncmuxLock.fresh.unlock.1.scopeExit.1 = AsyncmuxLock.fresh.unlock.1 := by
  refine ⟨?_, by decide, by decide⟩
  match ops, h with
  | op :: ops, _ =>
      have h1 : (AsyncmuxLock.fresh.applyOp op).1.cell.resolved = true ∧
          (AsyncmuxLock.fresh.applyOp op).2 = true := by
        cases op <;> exact ⟨rfl, rfl⟩
      rw [runOps_cons, h1.2]
      simp [runOps_after_settled _ _ h1.1]

theorem c7_release_once_semantics_witness :
    ([ReleaseOp.unlock, ReleaseOp.unlock] ≠ ([] : List ReleaseOp)) ∧
      ((AsyncmuxLock.fresh.runOps [ReleaseOp.unlock, ReleaseOp.unlock]).2 = 1 ∧
        AsyncmuxLock.fresh.unlock.1.unlock.1 = AsyncmuxLock.fresh.unlock.1 ∧
        AsyncmuxLock.fresh.unlock.1.scopeExit.1 = AsyncmuxLock.fresh.unlock.1) :=
  ⟨by decide, c7_release_once_semantics [ReleaseOp.unlock, ReleaseOp.unlock] (by decide)⟩

/-- C9: `singleton(key, fn)`: while a cache entry for the key exists, `fn` is
not executed and the cached entry is returned; for a key with no entry, an
async rejection evicts the entry so that a subsequent call re-executes `fn`;
a synchronous throw writes no entry. -/
theorem c9_singleton_cache_contract {κ α ε : Type} [DecidableEq κ]
    (cache : Cache κ α) (k : κ) (fb fb' : FnBehavior α ε) (v : CacheVal α)
    (p : Nat) (e : ε) :
    (cacheGet cache k = some v → singleton cache k fb = (.ok v, cache, false)) ∧
    (cacheGet cache k = none →
      cacheGet
        (settleReject (singleton cache k (.retPromise p : FnBehavior α ε)).2.1 k) k
        = none ∧
      (singleton
        (settleReject (singleton cache k (.retPromise p : FnBehavior α ε)).2.1 k)
        k fb').2.2 = true) ∧
    (cacheGet cache k = none →
      singleton cache k (.throwSync e) = (.error e, cache, true)) := by
  refine ⟨fun h => ?_, fun h => ⟨?_, ?_⟩, fun h => ?_⟩
  · simp [singleton, h]
  · simp [singleton, h, settleReject, cacheGet_delete]
  · have hnone :
        cacheGet (settleReject (cacheSet cache k (.pendingPromise p)) k) k
          = none := by
      simp [settleReject, cacheGet_delete]
    cases fb' <;> simp [singleton, h, hnone]
  · simp [singleton, h]

theorem c9_singleton_cache_contract_witness :
    (cacheGet (fun _ : Nat => (none : Option (CacheVal Nat))) 0 = none) ∧
      singleton (ε := Nat) (fun _ : Nat => (none : Option (CacheVal Nat))) 0
          (.throwSync 7) =
        (.error 7, (fun _ : Nat => (none : Option (CacheVal Nat))), true) :=
  ⟨rfl,
    (c9_singleton_cache_contract (fun _ : Nat => none) 0 (.ret 0) (.ret 0)
        (.val 0) 0 7).2.2 rfl⟩

/-! ## The adjacency invariant (claim C5) -/

/-- No two adjacent items of a queue share a tag (in particular no W-W and no
R-R adjacency). -/
def alternatingTags (q : List QueueItem) : Prop :=
  q.Chain' (fun x y => x.tag ≠ y.tag)

theorem chain'_replaceLast {α : Type} {Rel : α → α → Prop} {l : List α} {x y : α}
    (hl : l.getLast? = some x) (hc : l.Chain' Rel)
    (hxy : ∀ a, Rel a x → Rel a y) : (l.dropLast ++ [y]).Chain' Rel := by
  have hne : l ≠ [] := by rintro rfl; simp at hl
  have hdecomp : l.dropLast ++ [l.getLast hne] = l := List.dropLast_append_getLast hne
  have hx : l.getLast hne = x := by
    rw [List.getLast?_eq_getLast l hne] at hl
    exact Option.some.inj hl
  rw [← hdecomp] at hc
  rw [List.chain'_append] at hc ⊢
  refine ⟨hc.1, List.chain'_singleton y, ?_⟩
  intro a ha z hz
  simp only [List.head?_cons, Option.mem_def, Option.some.injEq] at hz
  subst hz
  refine hxy a ?_
  have := hc.2.2 a ha (l.getLast hne) (by simp)
  rwa [hx] at this

theorem chain'_concat_of_rel {α : Type} {Rel : α → α → Prop} {l : List α} {x y : α}
    (hl : l.getLast? = some x) (hc : l.Chain' Rel) (hxy : Rel x y) :
    (l ++ [y]).Chain' Rel := by
  rw [List.chain'_append]
  refine ⟨hc, List.chain'_singleton y, ?_⟩
  intro a ha z hz
  simp only [List.head?_cons, Option.mem_def, Option.some.injEq] at hz
  subst hz
  rw [hl] at ha
  simp only [Option.mem_def, Option.some.injEq] at ha
  subst ha
  exact hxy

theorem getLast?_none_eq_nil {α : Type} {l : List α} (h : l.getLast? = none) :
    l = [] := by
  cases l with
  | nil => rfl
  | cons a t => rw [List.getLast?_eq_getLast _ (by simp)] at h; simp at h

theorem startHead_alternating (q : List QueueItem) (h : alternatingTags q) :
    alternatingTags (startHead q).1 := by
  cases q with
  | nil => exact h
  | cons item rest =>
      rw [alternatingTags, List.chain'_cons'] at h
      cases item <;>
        · rw [startHead, alternatingTags, List.chain'_cons']
          exact ⟨fun y hy => h.1 y hy, h.2⟩

theorem writerArrive_alternating (q : List QueueItem) (a : Nat)
    (h : alternatingTags q) : alternatingTags (writerArrive q a).1 := by
  cases hq : q.getLast? with
  | none =>
      rw [getLast?_none_eq_nil hq] at h ⊢
      simp [writerArrive, alternatingTags]
  | some item =>
      cases item with
      | w ready subs steps =>
          have hrepl : ∀ (r' : Bool) subs' steps',
              alternatingTags (q.dropLast ++ [.w r' subs' steps']) := by
            intro r' subs' steps'
            exact chain'_replaceLast hq h (fun b hb => hb)
          cases steps with
          | nil =>
              simp only [writerArrive, hq]
              split <;> exact hrepl _ _ _
          | cons st rest =>
              simp only [writerArrive, hq]
              exact hrepl _ _ _
      | r ready subs count =>
          simp only [writerArrive, hq]
          exact chain'_concat_of_rel hq h (by simp [QueueItem.tag])
      | g ready subs =>
          simp only [writerArrive, hq]
          exact chain'_concat_of_rel hq h (by simp [QueueItem.tag])

theorem readerArrive_alternating (q : List QueueItem) (a : Nat)
    (h : alternatingTags q) : alternatingTags (readerArrive q a).1 := by
  cases hq : q.getLast? with
  | none =>
      rw [getLast?_none_eq_nil hq] at h ⊢
      simp [readerArrive, alternatingTags]
  | some item =>
      cases item with
      | r ready subs count =>
          have hrepl : ∀ (r' : Bool) subs' count',
              alternatingTags (q.dropLast ++ [.r r' subs' count']) := by
            intro r' subs' count'
            exact chain'_replaceLast hq h (fun b hb => hb)
          simp only [readerArrive, hq]
          split <;> exact hrepl _ _ _
      | w ready subs steps =>
          simp only [readerArrive, hq]
          exact chain'_concat_of_rel hq h (by simp [QueueItem.tag])
      | g ready subs =>
          simp only [readerArrive, hq]
          exact chain'_concat_of_rel hq h (by simp [QueueItem.tag])

theorem gArrive_alternating (q : List QueueItem) (k : String)
    (h : alternatingTags q) : alternatingTags (gArrive q k).1 := by
  cases hq : q.getLast? with
  | none =>
      rw [getLast?_none_eq_nil hq] at h ⊢
      simp [gArrive, alternatingTags]
  | some item =>
      cases item with
      | g ready subs =>
          have hrepl : ∀ (r' : Bool) subs',
              alternatingTags (q.dropLast ++ [.g r' subs']) :=
            fun r' subs' => chain'_replaceLast hq h (fun b hb => hb)
          simp only [gArrive, hq]
          split
          · exact h
          · exact hrepl _ _
      | w ready subs steps =>
          simp only [gArrive, hq]
          exact chain'_concat_of_rel hq h (by simp [QueueItem.tag])
      | r ready subs count =>
          simp only [gArrive, hq]
          exact chain'_concat_of_rel hq h (by simp [QueueItem.tag])

theorem nextW_alternating (q : List QueueItem) (h : alternatingTags q) :
    alternatingTags (nextW q).1 := by
  cases q with
  | nil => exact h
  | cons item rest =>
      cases item with
      | w ready subs steps =>
          rw [nextW]
          rcases hp : popSteps steps with ⟨rest', woken, drained⟩
          cases woken with
          | some a =>
              simp only
              rw [alternatingTags, List.chain'_cons'] at h ⊢
              exact ⟨fun y hy => h.1 y hy, h.2⟩
          | none =>
              simp only
              exact startHead_alternating rest (List.Chain'.tail h)
      | r ready subs count => exact h
      | g ready subs => exact h

theorem nextR_alternating (q : List QueueItem) (h : alternatingTags q) :
    alternatingTags (nextR q).1 := by
  cases q with
  | nil => exact h
  | cons item rest =>
      cases item with
      | r ready subs count =>
          rw [nextR]
          by_cases hc : count - 1 = 0
          · simp only [hc, if_true]
            exact startHead_alternating rest (List.Chain'.tail h)
          · simp only [hc, if_false]
            rw [alternatingTags, List.chain'_cons'] at h ⊢
            exact ⟨fun y hy => h.1 y hy, h.2⟩
      | w ready subs steps => exact h
      | g ready subs => exact h

/-- One queue mutation the mux performs on a single queue: a writer, reader or
barrier arrival; the writer/reader release bookkeeping (`next`); the
shift-and-start done by the per-key advance closure registered on a
`GlobalItem`'s ready; or a bare head start. -/
inductive QueueOp : List QueueItem → List QueueItem → Prop where
  | wArr (q : List QueueItem) (a : Nat) : QueueOp q (writerArrive q a).1
  | rArr (q : List QueueItem) (a : Nat) : QueueOp q (readerArrive q a).1
  | gArr (q : List QueueItem) (k : String) : QueueOp q (gArrive q k).1
  | relW (q : List QueueItem) : QueueOp q (nextW q).1
  | relR (q : List QueueItem) : QueueOp q (nextR q).1
  | startH (q : List QueueItem) : QueueOp q (startHead q).1
  | keyAdvance (q : List QueueItem) : QueueOp q (startHead q.tail).1

/-- The queues reachable in the system: a queue starts empty (a context queue
or the global queue) or seeded with one `GlobalItem` (a fresh per-key queue),
and evolves by `QueueOp` steps. -/
inductive ReachQ : List QueueItem → Prop where
  | empty : ReachQ []
  | seeded (ready : Bool) (subs : List Sub) : ReachQ [.g ready subs]
  | step {q q' : List QueueItem} : ReachQ q → QueueOp q q' → ReachQ q'

/-- C5: at every observation point of every reachable queue, no two adjacent
items share a coalescible tag — a writer item is appended only onto a
non-writer tail, a reader item only onto a non-reader tail, and otherwise the
arriving acquirer coalesces into the tail, so no W-W or R-R adjacency ever
occurs. -/
theorem c5_no_adjacent_coalescible (q : List QueueItem) (h : ReachQ q) :
    alternatingTags q := by
  induction h with
  | empty => simp [alternatingTags]
  | seeded ready subs => simp [alternatingTags]
  | step _ op ih =>
      cases op with
      | wArr a => exact writerArrive_alternating _ a ih
      | rArr a => exact readerArrive_alternating _ a ih
      | gArr k => exact gArrive_alternating _ k ih
      | relW => exact nextW_alternating _ ih
      | relR => exact nextR_alternating _ ih
      | startH => exact startHead_alternating _ ih
      | keyAdvance => exact startHead_alternating _ (List.Chain'.tail ih)

theorem c5_no_adjacent_coalescible_witness :
    ReachQ (readerArrive (writerArrive [] 0).1 1).1 ∧
      alternatingTags (readerArrive (writerArrive [] 0).1 1).1 := by
  have hreach : ReachQ (readerArrive (writerArrive [] 0).1 1).1 :=
    ReachQ.step (ReachQ.step ReachQ.empty (QueueOp.wArr [] 0))
      (QueueOp.rArr (writerArrive [] 0).1 1)
  exact ⟨hreach, c5_no_adjacent_coalescible _ hreach⟩

/-! ## FIFO serialization of concurrently launched writers (claim C1)

N exclusive acquisitions launched concurrently in the single-threaded runtime
perform their queue mutations back-to-back (the wrapper bodies are synchronous
up to returning the promise chain), and each body starts on a microtask.  The
driver below processes the microtask list FIFO; a body step is atomic — the
claim's "disjoint body durations" — and its release `next()` runs in its
`finally`. -/

/-- Events of an execution trace: acquirer `a`'s body starts / finishes. -/
inductive Event where
  | start (a : Nat)
  | finish (a : Nat)
deriving DecidableEq, Repr

/-- The strictly serial trace running each listed acquirer's body to
completion before the next one starts. -/
def serialOf (xs : List Nat) : List Event :=
  xs.flatMap (fun i => [.start i, .finish i])

/-- The strictly serial FIFO trace over acquirers `0 .. n-1`. -/
def serialTrace (n : Nat) : List Event :=
  serialOf (List.range n)

/-- Launch `n` writer acquirers back-to-back on one empty instance queue.
Returns the queue and the FIFO microtask list of acquirers whose readiness
fired already at arrival. -/
def launchWriters : Nat → List QueueItem × List Nat
  | 0 => ([], [])
  | n + 1 =>
      let st := launchWriters n
      let arr := writerArrive st.1 n
      (arr.1, st.2 ++ if arr.2 then [n] else [])

/-- Acquirer-start tasks among fired subscribers (the instance mux registers
only acquirer continuations). -/
def subsToTasks : List Sub → List Nat
  | [] => []
  | .acqReady a :: rest => a :: subsToTasks rest
  | .keyNext _ :: rest => subsToTasks rest

/-- Process the microtask list FIFO: each task starts an acquirer, whose body
runs to completion and then performs the writer release `next()`, whose
emissions are appended to the task list.  Returns the trace and the final
queue. -/
def driveWriters : Nat → List QueueItem → List Nat → List Event × List QueueItem
  | 0, q, _ => ([], q)
  | _ + 1, q, [] => ([], q)
  | fuel + 1, q, a :: tasks =>
      let step := nextW q
      let rest := driveWriters fuel step.1 (tasks ++ subsToTasks step.2.1)
      (.start a :: .finish a :: rest.1, rest.2)

/-- The instance-form scenario: launch `n` exclusive acquirers concurrently,
then run to completion. -/
def irmWriterSim (n : Nat) : List Event × List QueueItem :=
  driveWriters (n + 1) (launchWriters n).1 (launchWriters n).2

theorem launchWriters_struct (n : Nat) :
    launchWriters (n + 1) =
      ([.w true [] (.selfNext :: (List.range' 1 n).map .wakeStep)], [0]) := by
  induction n with
  | zero => rfl
  | succ n ih =>
      show (let st := launchWriters (n + 1);
        let arr := writerArrive st.1 (n + 1);
        (arr.1, st.2 ++ if arr.2 then [n + 1] else [])) = _
      rw [ih]
      show ((writerArrive [.w true [] (.selfNext :: (List.range' 1 n).map .wakeStep)]
          (n + 1)).1, _) = _
      have harr : writerArrive
          [.w true [] (.selfNext :: (List.range' 1 n).map .wakeStep)] (n + 1) =
          ([.w true []
            ((.selfNext :: (List.range' 1 n).map .wakeStep) ++ [.wakeStep (n + 1)])],
            false) := rfl
      rw [harr]
      have hr : (.selfNext :: (List.range' 1 n).map .wakeStep) ++
          [StepTok.wakeStep (n + 1)] =
          .selfNext :: (List.range' 1 (n + 1)).map .wakeStep := by
        rw [List.range'_concat]
        simp [Nat.add_comm]
      rw [hr]
      simp

theorem driveWriters_no_tasks (fuel : Nat) (q : List QueueItem) :
    driveWriters fuel q [] = ([], q) := by
  cases fuel <;> rfl

/-- The release cascade on a single coalesced writer item: acquirer `a` is
running, the pending step resolvers wake `l` in order, each body completing
before the next starts; the queue drains at the end. -/
theorem driveWriters_wakes (l : List Nat) (a : Nat) (fuel : Nat)
    (h : l.length + 1 ≤ fuel) :
    driveWriters fuel [.w true [] (l.map .wakeStep)] [a] = (serialOf (a :: l), []) := by
  induction l generalizing a fuel with
  | nil =>
      match fuel, h with
      | fuel + 1, _ =>
          have h1 : driveWriters (fuel + 1) [.w true [] (List.map .wakeStep [])] [a] =
              (.start a :: .finish a :: (driveWriters fuel [] []).1,
                (driveWriters fuel [] []).2) := rfl
          rw [h1, driveWriters_no_tasks]
          rfl
  | cons b l' ih =>
      match fuel, h with
      | fuel + 1, h =>
          have h1 : driveWriters (fuel + 1)
              [.w true [] (List.map .wakeStep (b :: l'))] [a] =
              (.start a :: .finish a ::
                (driveWriters fuel [.w true [] (List.map .wakeStep l')] [b]).1,
                (driveWriters fuel [.w true [] (List.map .wakeStep l')] [b]).2) := rfl
          have hl : l'.length + 1 ≤ fuel := by
            simp only [List.length_cons] at h
            omega
          rw [h1, ih b fuel hl]
          rfl

/-- Same cascade with the item's leading `next` step still present (the state
right after the concurrent launch): `popSteps` skips it. -/
theorem driveWriters_selfNext (l : List Nat) (a : Nat) (fuel : Nat)
    (h : l.length + 1 ≤ fuel) :
    driveWriters fuel [.w true [] (.selfNext :: l.map .wakeStep)] [a] =
      (serialOf (a :: l), []) := by
  match fuel, h with
  | fuel + 1, h =>
      have h1 : driveWriters (fuel + 1)
          [.w true [] (.selfNext :: l.map .wakeStep)] [a] =
          driveWriters (fuel + 1) [.w true [] (l.map .wakeStep)] [a] := rfl
      rw [h1]
      exact driveWriters_wakes l a (fuel + 1) h

/-- Launch `n` keyed writer acquirers on the same key of a fresh keyed mux.
For the first, `#getQueueEntries` creates the trailing global item — with
resolved ready, since the global queue is empty — seeds the per-key queue with
it and registers the per-key advance closure on its ready; the writer then
arrives on the per-key queue.  Later arrivals find the per-key queue and
arrive there.  Returns (global queue, per-key queue). -/
def launchKeyedWriters : Nat → List QueueItem × List QueueItem
  | 0 => ([], [])
  | n + 1 =>
      let st := launchKeyedWriters n
      match n with
      | 0 =>
          let g' := (gArrive st.1 "k").1
          let pk0 := [g'.getLastD (.g true [])]
          (g', (writerArrive pk0 0).1)
      | _ + 1 => (st.1, (writerArrive st.2 n).1)

/-- The keyed-form scenario: after the concurrent launch the one pending
microtask is the per-key advance closure (the created global item's ready was
already resolved); it shifts the seeded global item off the per-key queue and
starts the new head, after which the bodies run as in the instance case.
Returns the trace and the final per-key queue (whose draining removes the
mapping entry). -/
def keyedWriterSim (n : Nat) : List Event × List QueueItem :=
  match n with
  | 0 => ([], [])
  | m + 1 =>
      let pk := (launchKeyedWriters (m + 1)).2
      let adv := startHead pk.tail
      driveWriters (m + 2) adv.1 (subsToTasks adv.2)

theorem launchKeyedWriters_struct (n : Nat) :
    launchKeyedWriters (n + 1) =
      ([.g true []],
        [.g true [],
          .w false [.acqReady 0] (.selfNext :: (List.range' 1 n).map .wakeStep)]) := by
  induction n with
  | zero => rfl
  | succ n ih =>
      have h1 : launchKeyedWriters (n + 2) =
          ((launchKeyedWriters (n + 1)).1,
            (writerArrive (launchKeyedWriters (n + 1)).2 (n + 1)).1) := rfl
      rw [h1, ih]
      have harr : writerArrive
          [.g true [],
            .w false [.acqReady 0] (.selfNext :: (List.range' 1 n).map .wakeStep)]
          (n + 1) =
          ([.g true [],
            .w false [.acqReady 0]
              ((.selfNext :: (List.range' 1 n).map .wakeStep) ++
                [.wakeStep (n + 1)])], false) := rfl
      rw [harr]
      have hr : (.selfNext :: (List.range' 1 n).map .wakeStep) ++
          [StepTok.wakeStep (n + 1)] =
          .selfNext :: (List.range' 1 (n + 1)).map .wakeStep := by
        rw [List.range'_concat]
        simp [Nat.add_comm]
      rw [hr]

theorem range_succ_cons (n : Nat) : List.range (n + 1) = 0 :: List.range' 1 n := by
  rw [List.range_eq_range']
  rfl

/-- C1: `n` exclusive acquisitions launched concurrently on the same owner
(instance form) or on the same key (keyed form) with disjoint body durations
execute strictly serially — the trace is exactly start 0, finish 0, start 1,
finish 1, … — in arrival order (FIFO by arrival, not by body duration), and
the queue drains at the end. -/
theorem c1_fifo_serial_writers (n : Nat) :
    irmWriterSim n = (serialTrace n, []) ∧ keyedWriterSim n = (serialTrace n, []) := by
  constructor
  · cases n with
    | zero => rfl
    | succ n =>
        have h1 : irmWriterSim (n + 1) =
            driveWriters (n + 2) (launchWriters (n + 1)).1 (launchWriters (n + 1)).2 :=
          rfl
        rw [h1, launchWriters_struct]
        have hlen : ((List.range' 1 n)).length + 1 ≤ n + 2 := by
          simp [List.length_range']
        have := driveWriters_selfNext (List.range' 1 n) 0 (n + 2) hlen
        rw [this, serialTrace, range_succ_cons]
  · cases n with
    | zero => rfl
    | succ n =>
        have h1 : keyedWriterSim (n + 1) =
            driveWriters (n + 2)
              (startHead (launchKeyedWriters (n + 1)).2.tail).1
              (subsToTasks (startHead (launchKeyedWriters (n + 1)).2.tail).2) := rfl
        rw [h1, launchKeyedWriters_struct]
        have hstart : (startHead
            ([QueueItem.g true [],
              .w false [.acqReady 0]
                (.selfNext :: (List.range' 1 n).map .wakeStep)].tail)) =
            ([.w true [] (.selfNext :: (List.range' 1 n).map .wakeStep)],
              [.acqReady 0]) := rfl
        rw [hstart]
        have hlen : ((List.range' 1 n)).length + 1 ≤ n + 2 := by
          simp [List.length_range']
        have := driveWriters_selfNext (List.range' 1 n) 0 (n + 2) hlen
        simp only [subsToTasks]
        rw [this, serialTrace, range_succ_cons]

/-! ## Cancellation while waiting (claim C6) -/

/-- Which of the two racing promises settles first for a pending acquirer: the
abort listener or the readiness. -/
inductive FirstSettled where
  | abortFirst
  | readyFirst
deriving DecidableEq, Repr

/-- The settle logic of `Asyncmux.lock` / `rLock` (part_002 lines 783-800 /
914-931), equivalent in `manualLock` (lines 294-309): the race of the abort
promise against readiness.  On abort the acquisition rejects with the token's
reason, after resolving the unlock promise — so the release bookkeeping
`readyPromise.then(() => unlockPromise).finally(next)` fires `next` as soon as
readiness arrives.  On readiness the caller receives a fresh lock handle.
Returns (result, unlock promise already resolved). -/
def settleLock (ρ : Type) (first : FirstSettled) (reason : ρ) :
    Except (MuxError ρ) AsyncmuxLock × Bool :=
  match first with
  | .abortFirst => (.error (.canceled reason), true)
  | .readyFirst => (.ok AsyncmuxLock.fresh, false)

/-- Like `driveWriters`, but the acquirers satisfying `c` were canceled while
waiting: when such an acquirer's readiness fires its body does not run (the
caller already received the rejection) and the release `next()` runs at once,
because the canceled acquirer resolved its unlock promise on rejection. -/
def driveWritersCancel (c : Nat → Bool) :
    Nat → List QueueItem → List Nat → List Event × List QueueItem
  | 0, q, _ => ([], q)
  | _ + 1, q, [] => ([], q)
  | fuel + 1, q, a :: tasks =>
      let step := nextW q
      let rest := driveWritersCancel c fuel step.1 (tasks ++ subsToTasks step.2.1)
      if c a then (rest.1, rest.2)
      else (.start a :: .finish a :: rest.1, rest.2)

/-- The instance-form scenario with cancellations: launch `n` exclusive
acquirers concurrently, some of whose tokens fire while they wait. -/
def irmWriterSimCancel (c : Nat → Bool) (n : Nat) : List Event × List QueueItem :=
  driveWritersCancel c (n + 1) (launchWriters n).1 (launchWriters n).2

theorem driveWritersCancel_no_tasks (c : Nat → Bool) (fuel : Nat)
    (q : List QueueItem) : driveWritersCancel c fuel q [] = ([], q) := by
  cases fuel <;> rfl

theorem driveWritersCancel_wakes (c : Nat → Bool) (l : List Nat) (a : Nat)
    (fuel : Nat) (h : l.length + 1 ≤ fuel) :
    driveWritersCancel c fuel [.w true [] (l.map .wakeStep)] [a] =
      (serialOf ((a :: l).filter (fun i => !c i)), []) := by
  induction l generalizing a fuel with
  | nil =>
      match fuel, h with
      | fuel + 1, _ =>
          have h1 : driveWritersCancel c (fuel + 1)
              [.w true [] (List.map .wakeStep [])] [a] =
              (if c a then ((driveWritersCancel c fuel [] []).1,
                  (driveWritersCancel c fuel [] []).2)
                else (.start a :: .finish a :: (driveWritersCancel c fuel [] []).1,
                  (driveWritersCancel c fuel [] []).2)) := rfl
          rw [h1, driveWritersCancel_no_tasks]
          by_cases hca : c a = true <;> simp [hca, serialOf, List.filter]
  | cons b l' ih =>
      match fuel, h with
      | fuel + 1, h =>
          have h1 : driveWritersCancel c (fuel + 1)
              [.w true [] (List.map .wakeStep (b :: l'))] [a] =
              (if c a then
                  ((driveWritersCancel c fuel
                      [.w true [] (List.map .wakeStep l')] [b]).1,
                    (driveWritersCancel c fuel
                      [.w true [] (List.map .wakeStep l')] [b]).2)
                else (.start a :: .finish a ::
                    (driveWritersCancel c fuel
                      [.w true [] (List.map .wakeStep l')] [b]).1,
                    (driveWritersCancel c fuel
                      [.w true [] (List.map .wakeStep l')] [b]).2)) := rfl
          have hl : l'.length + 1 ≤ fuel := by
            simp only [List.length_cons] at h
            omega
          rw [h1, ih b fuel hl]
          by_cases hca : c a = true <;> simp [hca, serialOf, List.filter]

theorem driveWritersCancel_selfNext (c : Nat → Bool) (l : List Nat) (a : Nat)
    (fuel : Nat) (h : l.length + 1 ≤ fuel) :
    driveWritersCancel c fuel [.w true [] (.selfNext :: l.map .wakeStep)] [a] =
      (serialOf ((a :: l).filter (fun i => !c i)), []) := by
  match fuel, h with
  | fuel + 1, h =>
      have h1 : driveWritersCancel c (fuel + 1)
          [.w true [] (.selfNext :: l.map .wakeStep)] [a] =
          driveWritersCancel c (fuel + 1) [.w true [] (l.map .wakeStep)] [a] := rfl
      rw [h1]
      exact driveWritersCancel_wakes c l a (fuel + 1) h

/-- `n` coalesced readers: one cohort item at head with count `n`; each
member's release bookkeeping — canceled or not, it is the same `next()` —
decrements the count, and the item is removed exactly at zero. -/
def readerCohortRelease : Nat → List QueueItem → List QueueItem
  | 0, q => q
  | k + 1, q => readerCohortRelease k (nextR q).1

theorem nextR_pos (ready : Bool) (subs : List Sub) (count : Int)
    (rest : List QueueItem) (h : count - 1 ≠ 0) :
    nextR (.r ready subs count :: rest) =
      (.r ready subs (count - 1) :: rest, [], false) := by
  simp [nextR, h]

theorem readerCohortRelease_drains (m : Nat) (hm : 1 ≤ m) :
    readerCohortRelease m [.r true [] (m : Int)] = [] := by
  induction m with
  | zero => omega
  | succ m ih =>
      cases m with
      | zero => rfl
      | succ m' =>
          show readerCohortRelease (m' + 1)
            (nextR [.r true [] ((m' + 2 : Nat) : Int)]).1 = []
          rw [nextR_pos true [] _ [] (by push_cast; omega)]
          have h2 : (((m' + 2 : Nat) : Int) - 1) = ((m' + 1 : Nat) : Int) := by
            push_cast
            ring
          simp only [h2]
          exact ih (by omega)

/-- C6: an acquisition canceled after it enqueued/coalesced but before it
became ready rejects with the token's reason and its body never runs (the
trace holds exactly the non-canceled bodies, still in FIFO order), yet its
release bookkeeping still runs when its turn comes: the final queue equals the
final queue of the run in which every acquirer completed normally (both
drain), and a canceled reader still decrements the cohort count, the item
leaving the queue exactly at zero. -/
theorem c6_cancel_keeps_bookkeeping (ρ : Type) (reason : ρ) (c : Nat → Bool)
    (n : Nat) (m : Nat) (hm : 1 ≤ m) :
    settleLock ρ .abortFirst reason = (.error (.canceled reason), true) ∧
    (irmWriterSimCancel c n).1 = serialOf ((List.range n).filter (fun i => !c i)) ∧
    (irmWriterSimCancel c n).2 = (irmWriterSim n).2 ∧
    readerCohortRelease m [.r true [] (m : Int)] = [] := by
  refine ⟨rfl, ?_, ?_, readerCohortRelease_drains m hm⟩
  · cases n with
    | zero => rfl
    | succ n =>
        have h1 : irmWriterSimCancel c (n + 1) =
            driveWritersCancel c (n + 2) (launchWriters (n + 1)).1
              (launchWriters (n + 1)).2 := rfl
        rw [h1, launchWriters_struct]
        have hlen : ((List.range' 1 n)).length + 1 ≤ n + 2 := by
          simp [List.length_range']
        have := driveWritersCancel_selfNext c (List.range' 1 n) 0 (n + 2) hlen
        rw [this, range_succ_cons]
  · cases n with
    | zero => rfl
    | succ n =>
        have h1 : irmWriterSimCancel c (n + 1) =
            driveWritersCancel c (n + 2) (launchWriters (n + 1)).1
              (launchWriters (n + 1)).2 := rfl
        have h2 : irmWriterSim (n + 1) =
            driveWriters (n + 2) (launchWriters (n + 1)).1
              (launchWriters (n + 1)).2 := rfl
        rw [h1, h2, launchWriters_struct]
        have hlen : ((List.range' 1 n)).length + 1 ≤ n + 2 := by
          simp [List.length_range']
        rw [driveWritersCancel_selfNext c (List.range' 1 n) 0 (n + 2) hlen,
          driveWriters_selfNext (List.range' 1 n) 0 (n + 2) hlen]

theorem c6_cancel_keeps_bookkeeping_witness :
    (1 ≤ 2) ∧
      (settleLock Nat .abortFirst 5 = (.error (.canceled 5), true) ∧
        (irmWriterSimCancel (fun i => i = 1) 3).1 =
          serialOf ((List.range 3).filter (fun i => !(i = 1 : Bool))) ∧
        (irmWriterSimCancel (fun i => i = 1) 3).2 = (irmWriterSim 3).2 ∧
        readerCohortRelease 2 [.r true [] (2 : Int)] = []) :=
  ⟨by decide, c6_cancel_keeps_bookkeeping Nat 5 (fun i => i = 1) 3 2 (by decide)⟩

/-! ## The keyed mux machine (claims C3 and C10)

The `Asyncmux` class state: the global queue, the key → per-key-queue map,
the registered acquirers, and the FIFO microtask list.  A per-key queue is
seeded with the (aliased) trailing global item; the alias carries no state the
per-key side ever reads beyond its tag, so the seed is stored as a copy while
ready-resolution and watcher subscribers live on the global copy. -/

def alistGet {κ β : Type} [DecidableEq κ] (l : List (κ × β)) (k : κ) : Option β :=
  match l with
  | [] => none
  | (k', v) :: rest => if k' = k then some v else alistGet rest k

def alistSet {κ β : Type} [DecidableEq κ] (l : List (κ × β)) (k : κ) (v : β) :
    List (κ × β) :=
  match l with
  | [] => [(k, v)]
  | (k', v') :: rest =>
      if k' = k then (k, v) :: rest else (k', v') :: alistSet rest k v

def alistDelete {κ β : Type} [DecidableEq κ] (l : List (κ × β)) (k : κ) :
    List (κ × β) :=
  match l with
  | [] => []
  | (k', v') :: rest => if k' = k then rest else (k', v') :: alistDelete rest k

/-- A microtask of the keyed machine: a fired ready-subscriber, or the
`.finally(next)` release bookkeeping of an acquirer whose unlock promise has
resolved. -/
inductive KTask where
  | sub (s : Sub)
  | release (a : Nat)
deriving DecidableEq, Repr

/-- Where an acquirer arrived: the global queue, or the per-key queue of `k`. -/
inductive QRef where
  | global
  | key (k : String)
deriving DecidableEq, Repr

inductive KStatus where
  | waiting
  | acquired
  | released
deriving DecidableEq, Repr

/-- An acquirer of the keyed mux: the queue entries it arrived on (a fan-out
when an unkeyed acquisition meets existing per-key queues), its `Promise.all`
latch over those entries, its kind, whether the scripted caller releases
immediately upon acquisition, and its lifecycle status. -/
structure KAcq where
  entries : List QRef
  waitCount : Nat
  kind : LockKind
  autoRelease : Bool
  status : KStatus
deriving DecidableEq, Repr

structure KMachine where
  globalQueue : List QueueItem
  keyQueues : List (String × List QueueItem)
  acqs : List (Nat × KAcq)
  freshAcq : Nat
  tasks : List KTask
  /-- The order in which acquisitions completed (their `readyPromise` chain
  resolved to a lock handle). -/
  order : List Nat
deriving DecidableEq, Repr

def KMachine.init : KMachine := ⟨[], [], [], 0, [], []⟩

def queueOf (m : KMachine) : QRef → List QueueItem
  | .global => m.globalQueue
  | .key k => (alistGet m.keyQueues k).getD []

def setQueue (m : KMachine) : QRef → List QueueItem → KMachine
  | .global, q => { m with globalQueue := q }
  | .key k, q => { m with keyQueues := alistSet m.keyQueues k q }

/-- `#getQueueEntries` (part_002 lines 603-654): resolve which queues the
acquisition arrives on.  No key: the global queue, unless per-key queues exist,
in which case every current per-key queue.  A key with an existing queue: that
queue.  A key with no queue: obtain or create the trailing global item, seed a
new per-key queue with it, and register the per-key advance closure on its
ready (fired at once when that ready is already resolved). -/
def kGetQueueEntries (m : KMachine) (key : Option String) :
    KMachine × List QRef :=
  match key with
  | none =>
      if m.keyQueues.isEmpty then (m, [.global])
      else (m, m.keyQueues.map (fun e => .key e.1))
  | some k =>
      match alistGet m.keyQueues k with
      | some _ => (m, [.key k])
      | none =>
          let arr := gArrive m.globalQueue k
          let gi := arr.1.getLastD (.g true [])
          ({ m with
              globalQueue := arr.1,
              keyQueues := alistSet m.keyQueues k [gi],
              tasks := m.tasks ++ if arr.2 then [.sub (.keyNext k)] else [] },
            [.key k])

/-- One entry of the arrival loop of `Asyncmux.lock` / `rLock` (lines 702-763
/ 849-893): run the §4.1 arrival on the referenced queue; when the entry's
readiness already fired at arrival, the acquirer's continuation is scheduled
as a microtask. -/
def kArriveOne (m : KMachine) (a : Nat) (kind : LockKind) (ref : QRef) :
    KMachine :=
  let q := queueOf m ref
  let arr := match kind with
    | .W => writerArrive q a
    | .R => readerArrive q a
  let m' := setQueue m ref arr.1
  { m' with tasks := m'.tasks ++ if arr.2 then [.sub (.acqReady a)] else [] }

/-- The acquisition entry of `Asyncmux.lock` / `rLock`: resolve the entries,
arrive on each, and register the acquirer with its latch. -/
def kAcquire (m : KMachine) (key : Option String) (kind : LockKind)
    (autoRelease : Bool) : KMachine × Nat :=
  let a := m.freshAcq
  let step1 := kGetQueueEntries m key
  let m2 := step1.2.foldl (fun acc ref => kArriveOne acc a kind ref) step1.1
  ({ m2 with
      freshAcq := a + 1,
      acqs := m2.acqs ++ [(a,
        { entries := step1.2, waitCount := step1.2.length, kind := kind,
          autoRelease := autoRelease, status := .waiting })] }, a)

/-- The release `next()` on one entry (writer: lines 729-742; reader: lines
876-887): advance the referenced queue; when it drained and the entry is
keyed, delete the mapping entry. -/
def kNextOne (m : KMachine) (kind : LockKind) (ref : QRef) : KMachine :=
  let q := queueOf m ref
  let res := match kind with
    | .W => nextW q
    | .R => nextR q
  let m' := setQueue m ref res.1
  let m'' := { m' with tasks := m'.tasks ++ res.2.1.map KTask.sub }
  if res.2.2 then
    match ref with
    | .key k => { m'' with keyQueues := alistDelete m''.keyQueues k }
    | .global => m''
  else m''

/-- The `.finally(next)` of acquirer `a`: `next` runs once per entry
(`nextFuncList.forEach`). -/
def kRelease (m : KMachine) (a : Nat) : KMachine :=
  match alistGet m.acqs a with
  | none => m
  | some acq =>
      let m' := acq.entries.foldl (fun acc ref => kNextOne acc acq.kind ref) m
      { m' with acqs := alistSet m'.acqs a ({ acq with status := .released }) }

/-- Process one microtask.  A fired per-key advance shifts that per-key queue
and starts its new head, deleting the mapping when the queue drained; a fired
acquirer continuation decrements the `Promise.all` latch, and at zero the
acquisition completes — with auto-release scripted, the release bookkeeping is
scheduled at once.  `none` means the machine is quiescent: no pending
microtask exists, so no further state change can ever occur. -/
def kStep (m : KMachine) : Option KMachine :=
  match m.tasks with
  | [] => none
  | t :: rest =>
      let m0 := { m with tasks := rest }
      some (match t with
        | .sub (.keyNext k) =>
            match alistGet m0.keyQueues k with
            | none => m0
            | some q =>
                let res := startHead q.tail
                let m1 := setQueue m0 (.key k) res.1
                let m2 := { m1 with tasks := m1.tasks ++ res.2.map KTask.sub }
                if res.1.isEmpty then
                  { m2 with keyQueues := alistDelete m2.keyQueues k }
                else m2
        | .sub (.acqReady a) =>
            match alistGet m0.acqs a with
            | none => m0
            | some acq =>
                let wc := acq.waitCount - 1
                if wc = 0 then
                  let acq' : KAcq := { acq with waitCount := 0, status := .acquired }
                  let m1 := { m0 with
                    acqs := alistSet m0.acqs a acq'
                    order := m0.order ++ [a] }
                  if acq.autoRelease then
                    { m1 with tasks := m1.tasks ++ [.release a] }
                  else m1
                else
                  let acq' : KAcq := { acq with waitCount := wc }
                  { m0 with acqs := alistSet m0.acqs a acq' }
        | .release a => kRelease m0 a)

def kRun : Nat → KMachine → KMachine
  | 0, m => m
  | fuel + 1, m =>
      match kStep m with
      | none => m
      | some m' => kRun fuel m'

/-- The barrier scenario of the test suite (part_001 lines 758-795, the spec's
S6): an unkeyed lock, keyed locks on two keys, another unkeyed lock, another
keyed lock, each releasing on completion. -/
def kBarrierScenario : KMachine :=
  let s1 := (kAcquire KMachine.init none .W true).1
  let s2 := (kAcquire s1 (some "key1") .W true).1
  let s3 := (kAcquire s2 (some "key2") .W true).1
  let s4 := (kAcquire s3 none .W true).1
  let s5 := (kAcquire s4 (some "key1") .W true).1
  kRun 64 s5

/-- Machine validation: the keyed machine reproduces the passing barrier test —
the five acquisitions complete in the test's order (K1; K2 and K3 after the
barrier; K4 after both; K5 after K4), the second barrier fans out over both
per-key queues, every per-key queue is deleted, and a stale resolved global
item is what remains on the global queue. -/
theorem kBarrierScenario_matches_test :
    kBarrierScenario.order = [0, 1, 2, 3, 4] ∧
    (alistGet kBarrierScenario.acqs 3).map (fun a => a.entries.length) = some 2 ∧
    kBarrierScenario.keyQueues = [] ∧
    kBarrierScenario.globalQueue = [.g true []] ∧
    kStep kBarrierScenario = none := by
  exact ⟨rfl, rfl, rfl, rfl, rfl⟩

/-- C3 scenario, stage 1: on a fresh keyed mux, a keyed exclusive acquisition
that releases immediately, run to quiescence (the per-key queue drains and its
mapping entry is removed). -/
def c3Stage1 : KMachine := kRun 16 (kAcquire KMachine.init (some "k") .W true).1

/-- C3 scenario, stage 2: a subsequently arriving unkeyed exclusive
acquisition, run to quiescence. -/
def c3Stage2 : KMachine := kRun 16 (kAcquire c3Stage1 none .W false).1

/-- C3 (refuted on the code): after a keyed acquisition has been acquired and
released — its per-key queue drained and its mapping entry removed — a
subsequently arriving unkeyed exclusive acquisition does NOT become ready.
The keyed acquisition completed and released (status `released`, key map
empty), the unkeyed acquisition arrived on the global queue behind the stale
drained global item, and the machine is quiescent (`kStep = none`: no pending
microtask, so nothing can ever resolve the new writer item's ready) while the
unkeyed acquirer is still `waiting` with an unresolved ready — its acquisition
never completes.  The stale global item is never removed from the global
queue, contradicting the claim's "ready … resolved once every earlier
global-queue item has drained … the acquisition completes". -/
theorem c3_unkeyed_stuck_after_keyed_drain :
    (alistGet c3Stage2.acqs 0).map KAcq.status = some .released ∧
    c3Stage2.keyQueues = [] ∧
    (alistGet c3Stage2.acqs 1).map KAcq.status = some .waiting ∧
    c3Stage2.order = [0] ∧
    c3Stage2.globalQueue =
      [.g true [], .w false [.acqReady 1] [.selfNext]] ∧
    kStep c3Stage2 = none := by
  exact ⟨rfl, rfl, rfl, rfl, rfl, rfl⟩

/-- The rejection behavior of `Asyncmux.lock` (lines 691-801): the pre-check
`abortSignal?.throwIfAborted()` rejects with the token's reason when the token
already fired; otherwise the arrival loop runs — it is total, every branch of
the tail switch returns normally — and the outcome is decided by the race of
abort against readiness (`settleLock`). -/
def krmLockOutcome (ρ : Type) (alreadyAborted : Option ρ) (first : FirstSettled)
    (reason : ρ) : Except (MuxError ρ) AsyncmuxLock :=
  match alreadyAborted with
  | some r => .error (.canceled r)
  | none => (settleLock ρ first reason).1

/-- The rejection behavior of `Asyncmux.rLock` (lines 838-932): identical
shape — pre-check, total arrival loop, abort/readiness race. -/
def krmRLockOutcome (ρ : Type) (alreadyAborted : Option ρ) (first : FirstSettled)
    (reason : ρ) : Except (MuxError ρ) AsyncmuxLock :=
  match alreadyAborted with
  | some r => .error (.canceled r)
  | none => (settleLock ρ first reason).1

/-- C10: the keyed mux keeps no holder kind (its state is only the queues) and
its `lock` and `rLock` never reject with the escalation error under any
nesting or interleaving: the acquisition either yields a lock handle or
rejects with the supplied token's reason — the pre-check reason when already
aborted, else the race reason. -/
theorem c10_krm_only_cancellation_errors (ρ : Type) (aa : Option ρ)
    (first : FirstSettled) (reason : ρ) :
    (krmLockOutcome ρ aa first reason = .ok AsyncmuxLock.fresh ∨
      krmLockOutcome ρ aa first reason = .error (.canceled (aa.getD reason))) ∧
    (krmRLockOutcome ρ aa first reason = .ok AsyncmuxLock.fresh ∨
      krmRLockOutcome ρ aa first reason = .error (.canceled (aa.getD reason))) ∧
    krmLockOutcome ρ aa first reason ≠ .error .escalation ∧
    krmRLockOutcome ρ aa first reason ≠ .error .escalation := by
  cases aa with
  | none =>
      cases first <;>
        exact ⟨by simp [krmLockOutcome, settleLock],
          by simp [krmRLockOutcome, settleLock],
          by simp [krmLockOutcome, settleLock],
          by simp [krmRLockOutcome, settleLock]⟩
  | some r =>
      exact ⟨by simp [krmLockOutcome], by simp [krmRLockOutcome],
        by simp [krmLockOutcome], by simp [krmRLockOutcome]⟩

/-! ## The instance mux machine with nesting (claims C4 and C8)

`asyncmuxClassMethod` (part_002 lines 319-409) reads `this[CONTEXT]` at call
time, enqueues on THAT context's queue, and — when the body starts — installs
a fresh `AsyncmuxContext("W")` as `this[CONTEXT]`, restoring the captured
context in its `finally` before running `next()`.  Nested acquisitions made
while a body runs therefore observe and enqueue on the freshly installed
sub-context. -/

/-- A body script: log a message and finish, or log and launch child exclusive
acquisitions on the same owner, awaiting them all (`Promise.all`), as the
nested-writer test bodies do. -/
inductive Body where
  | leaf (msg : String)
  | par (msg : String) (children : List Body)

inductive NStatus where
  | waiting
  | running
  | done
  | failed
deriving DecidableEq, Repr

/-- The model of `AsyncmuxContext` (lines 159-179). -/
structure NCtx where
  lockType : Option LockKind
  queue : List QueueItem

/-- An acquirer of the instance mux: the context captured at arrival
(`const context = this[CONTEXT]`), its body, status, parent (the enclosing
body awaiting it, if any) and the count of children it still awaits. -/
structure NAcq where
  ctxId : Nat
  body : Body
  status : NStatus
  parent : Option Nat
  pendingChildren : Nat

inductive NTask where
  | start (a : Nat)
  | resume (a : Nat)
deriving DecidableEq, Repr

structure NMachine where
  ctxs : List (Nat × NCtx)
  /-- The current value of the owner's hidden CONTEXT property. -/
  slot : Nat
  freshCtx : Nat
  acqs : List (Nat × NAcq)
  freshAcq : Nat
  tasks : List NTask
  log : List String
  /-- Instrumentation: for each acquirer, the context it observed — and whose
  queue its arrival mutated — when it read `this[CONTEXT]`. -/
  arrCtx : List (Nat × Nat)

/-- A fresh owner: the hidden property holds context 0 (installed by
`initializeInstance`), lock type `null`, empty queue. -/
def NMachine.start : NMachine :=
  { ctxs := [(0, ⟨none, []⟩)], slot := 0, freshCtx := 1, acqs := [],
    freshAcq := 0, tasks := [], log := [], arrCtx := [] }

/-- One invocation of the wrapped method (lines 319-399): read
`this[CONTEXT]`, check the holder kind (escalation when it is `"R"`), and
perform the writer arrival on that context's queue. -/
def nArrive (m : NMachine) (body : Body) (parent : Option Nat) : NMachine :=
  let a := m.freshAcq
  match alistGet m.ctxs m.slot with
  | none => m
  | some ctx =>
      match ctx.lockType with
      | some .R =>
          { m with
            freshAcq := a + 1,
            acqs := m.acqs ++ [(a, ⟨m.slot, body, .failed, parent, 0⟩)],
            arrCtx := m.arrCtx ++ [(a, m.slot)] }
      | _ =>
          let arr := writerArrive ctx.queue a
          { m with
            freshAcq := a + 1,
            ctxs := alistSet m.ctxs m.slot ⟨ctx.lockType, arr.1⟩,
            acqs := m.acqs ++ [(a, ⟨m.slot, body, .waiting, parent, 0⟩)],
            arrCtx := m.arrCtx ++ [(a, m.slot)],
            tasks := m.tasks ++ if arr.2 then [.start a] else [] }

/-- The `finally` of an acquirer whose body (and awaited children) completed
(lines 405-408): restore `this[CONTEXT]` to the captured context, run `next()`
on it, and notify the parent awaiting this child. -/
def nComplete (m : NMachine) (a : Nat) : NMachine :=
  match alistGet m.acqs a with
  | none => m
  | some acq =>
      let m1 := { m with
        slot := acq.ctxId
        acqs := alistSet m.acqs a ({ acq with status := .done }) }
      match alistGet m1.ctxs acq.ctxId with
      | none => m1
      | some ctx =>
          let res := nextW ctx.queue
          let m2 := { m1 with
            ctxs := alistSet m1.ctxs acq.ctxId ⟨ctx.lockType, res.1⟩
            tasks := m1.tasks ++ (subsToTasks res.2.1).map NTask.start }
          match acq.parent with
          | none => m2
          | some p =>
              match alistGet m2.acqs p with
              | none => m2
              | some pacq =>
                  let pc := pacq.pendingChildren - 1
                  let pacq' : NAcq := { pacq with pendingChildren := pc }
                  let m3 := { m2 with acqs := alistSet m2.acqs p pacq' }
                  if pc = 0 then { m3 with tasks := m3.tasks ++ [.resume p] }
                  else m3

/-- Start acquirer `a`'s body (lines 400-404): install a fresh
`AsyncmuxContext("W")` as `this[CONTEXT]`, run the body — which logs and
either returns (leaf) or launches its children and suspends awaiting them. -/
def nStart (m : NMachine) (a : Nat) : NMachine :=
  match alistGet m.acqs a with
  | none => m
  | some acq =>
      let cid := m.freshCtx
      let m1 := { m with
        ctxs := alistSet m.ctxs cid ⟨some .W, []⟩
        freshCtx := cid + 1
        slot := cid
        acqs := alistSet m.acqs a ({ acq with status := .running }) }
      match acq.body with
      | .leaf msg => nComplete { m1 with log := m1.log ++ [msg] } a
      | .par msg children =>
          let m2 := { m1 with log := m1.log ++ [msg] }
          let m3 := children.foldl (fun acc ch => nArrive acc ch (some a)) m2
          let m4 := match alistGet m3.acqs a with
            | none => m3
            | some acq' =>
                let acq'' : NAcq := { acq' with
                  pendingChildren := children.length }
                { m3 with acqs := alistSet m3.acqs a acq'' }
          if children.isEmpty then nComplete m4 a else m4

/-- Process one microtask: a readiness continuation starts a body; a resolved
`Promise.all` resumes a suspended parent, which then completes. -/
def nStep (m : NMachine) : Option NMachine :=
  match m.tasks with
  | [] => none
  | t :: rest =>
      let m0 := { m with tasks := rest }
      some (match t with
        | .start a => nStart m0 a
        | .resume a => nComplete m0 a)

def nRun : Nat → NMachine → NMachine
  | 0, m => m
  | fuel + 1, m =>
      match nStep m with
      | none => m
      | some m' => nRun fuel m'

/-- The nested-writer body of the test suite (part_001 lines 62-98, the
spec's S4): log `"W1:" ++ v`, then await two nested exclusive calls that log
`"W2:A"` and `"W2:B"`. -/
def w1Body (v : String) : Body :=
  .par ("W1:" ++ v) [.leaf "W2:A", .leaf "W2:B"]

/-- The S4 scenario: `write1("A")` and `write1("B")` launched in parallel on a
fresh owner, run to quiescence. -/
def s4Machine : NMachine :=
  nRun 32 (nArrive (nArrive NMachine.start (w1Body "A") none) (w1Body "B") none)

/-- `initializeInstance` (part_002 lines 205-226): install the hidden CONTEXT
property holding a fresh context only when the owner does not already own one
(the `Object.hasOwn` guard); an existing association is left untouched. -/
def initializeInstance (owner : Option Nat) (freshId : Nat) : Option Nat :=
  match owner with
  | some _ => owner
  | none => some freshId

/-- C4 (refuted on the code at the S4 input): a nested writer acquisition does
NOT append a step to `W.steps` of the outer head WriterItem of the owner's
queue.  Acquirer 2 — the first nested `write2` inside the running `write1`
body — proceeded to completion, yet the context whose queue its arrival
mutated (an arrival is the only step-push site) is the freshly installed
sub-context 1, not the owner's context 0 holding the outer head WriterItem. -/
theorem c4_counterexample :
    (alistGet s4Machine.acqs 2).map NAcq.status = some .done ∧
    alistGet s4Machine.arrCtx 2 = some 1 ∧
    alistGet s4Machine.arrCtx 0 = some 0 ∧
    (1 : Nat) ≠ 0 :=
  ⟨rfl, rfl, rfl, by decide⟩

/-- C4 (amended): a writer acquisition nested inside a running writer's body
on the same owner enqueues on the fresh sub-context installed for the body's
duration (`this[CONTEXT] = new AsyncmuxContext("W")`, restored in the
`finally`), appending its step to that sub-queue's writer item; the step runs
while the outer holder is suspended at `await`, and the nested call does not
deadlock — the S4 scenario runs to quiescence with the test suite's expected
log, every acquirer done and the owner's context restored. -/
theorem c4_nested_in_subcontext_no_deadlock :
    s4Machine.log = ["W1:A", "W2:A", "W2:B", "W1:B", "W2:A", "W2:B"] ∧
    s4Machine.arrCtx = [(0, 0), (1, 0), (2, 1), (3, 1), (4, 4), (5, 4)] ∧
    s4Machine.acqs.map (fun e => e.2.status) =
      [.done, .done, .done, .done, .done, .done] ∧
    nStep s4Machine = none ∧
    s4Machine.slot = 0 := by
  exact ⟨rfl, rfl, rfl, rfl, rfl⟩

/-- C8 (refuted on the code at the S4 input): the owner's lock context is NOT
immutable in identity once present — an acquisition arriving while a body runs
finds a different context object than the one the first acquisition found:
acquirer 0 read context 0 from the owner, the later acquirer 2 read the
temporarily installed context 1. -/
theorem c8_counterexample :
    alistGet s4Machine.arrCtx 0 = some 0 ∧
    alistGet s4Machine.arrCtx 2 = some 1 ∧
    (1 : Nat) ≠ 0 :=
  ⟨rfl, rfl, by decide⟩

/-- C8 (amended): the owner's lock context is created lazily —
`initializeInstance` installs a context only when none is present and leaves
an existing one untouched, so repeated initialization finds the same context —
and acquisitions made while no body is running find that same original
context: the CONTEXT property's value is replaced by a fresh sub-context only
for a body's duration and restored on exit (after the S4 run the slot is back
to context 0, and both top-level acquisitions observed context 0). -/
theorem c8_context_lazy_and_restored (cid fresh fresh' : Nat) :
    initializeInstance none fresh = some fresh ∧
    initializeInstance (some cid) fresh' = some cid ∧
    initializeInstance (initializeInstance none fresh) fresh' = some fresh ∧
    alistGet s4Machine.arrCtx 0 = some 0 ∧
    alistGet s4Machine.arrCtx 1 = some 0 ∧
    s4Machine.slot = 0 :=
  ⟨rfl, rfl, rfl, rfl, rfl, rfl⟩

end Asyncmux
